import Mathlib

/-!
Verification of EchoCore's ONNX Runtime CUDA opt-in gate and of the
two-pass streaming orchestrator described in the specification.

Part 1 embeds `ShouldEnableOrtCuda` and `TryEnableCudaExecutionProvider`
from `src/onnxruntime/src/precomp.h` (non-Apple branch).  The process
environment is modelled by the value `getenv("FUNASR_ORT_USE_CUDA")`
returns: `none` when the variable is unset, `some v` otherwise (a C
string, so `v = ""` corresponds to `raw[0] == '\0'`).  The outcome of
`Ort::SessionOptions::AppendExecutionProvider_CUDA`, an external call
that may throw, is passed in explicitly as an `Except`.
-/

namespace OrtCuda

/-- `std::tolower` on an `unsigned char` in the C locale: only the ASCII
uppercase letters are mapped down; every other byte is unchanged. -/
def toLowerChar (c : Char) : Char :=
  if 65 ≤ c.toNat ∧ c.toNat ≤ 90 then Char.ofNat (c.toNat + 32) else c

/-- The lowercasing loop `for (char& ch : flag) ch = tolower(ch);`. -/
def lowercased (s : String) : String :=
  String.mk (s.data.map toLowerChar)

/-- `ShouldEnableOrtCuda` from `precomp.h` lines 79–93: false when the
variable is unset or empty; otherwise lowercase the value and accept
exactly "1", "true", "on" and "yes". -/
def shouldEnableOrtCuda (env : Option String) : Bool :=
  match env with
  | none => false
  | some raw =>
    if raw = "" then
      false
    else
      let flag := lowercased raw
      if flag = "1" ∨ flag = "true" ∨ flag = "on" ∨ flag = "yes" then
        true
      else
        false

/-- Severity of a glog statement. -/
inductive Severity where
  | info
  | warning
deriving DecidableEq, Repr

/-- One glog statement: severity plus rendered message. -/
structure LogEntry where
  severity : Severity
  message : String
deriving DecidableEq, Repr

/-- The observable state of an `Ort::SessionOptions`: the list of
execution providers appended so far. -/
structure SessionOptions where
  providers : List String
deriving DecidableEq, Repr

/-- `TryEnableCudaExecutionProvider` from `precomp.h` lines 95–110.
`appendOutcome` is the behaviour of the external
`AppendExecutionProvider_CUDA` call at this invocation: `Except.ok ()`
when it succeeds, `Except.error e` when it throws a `std::exception`
whose `what()` is `e` (in which case the options are not extended).
The result triple is (what the function call yields to its caller —
`Except.error` would mean an uncaught exception escaping —, the options
after the call, the log statements emitted). -/
def tryEnableCudaExecutionProvider (env : Option String)
    (appendOutcome : Except String Unit)
    (options : SessionOptions) (model_tag : String) :
    Except String Bool × SessionOptions × List LogEntry :=
  if shouldEnableOrtCuda env = false then
    (Except.ok false, options,
     [⟨Severity.info, model_tag ++ " CUDAExecutionProvider disabled by FUNASR_ORT_USE_CUDA"⟩])
  else
    match appendOutcome with
    | Except.ok () =>
        (Except.ok true,
         ⟨options.providers ++ ["CUDAExecutionProvider"]⟩,
         [⟨Severity.info, model_tag ++ " using CUDAExecutionProvider"⟩])
    | Except.error e =>
        (Except.ok false, options,
         [⟨Severity.warning, model_tag ++ " fallback to CPUExecutionProvider: " ++ e⟩])

/-- Number of warning-severity log statements in a log. -/
def warningCount (logs : List LogEntry) : Nat :=
  (logs.filter (fun l => l.severity = Severity.warning)).length

/-- Specification-side predicate for C8: the value, lowercased character
by character, equals one of "1", "true", "on", "yes". -/
def specCudaOptIn (v : String) : Prop :=
  lowercased v = "1" ∨ lowercased v = "true" ∨ lowercased v = "on" ∨ lowercased v = "yes"

instance (v : String) : Decidable (specCudaOptIn v) := by
  unfold specCudaOptIn
  infer_instance

end OrtCuda

/-!
Part 2: the two-pass streaming orchestrator.  The orchestrator sources
(`tpass-stream`, `tpass-online-stream`, session handling in
`funasrruntime`) are only included from `precomp.h` and are not part of
this tree, so the component is modelled from the specification: §4.5's
session state machine (`Idle -> Streaming -> (per Segment: Open ->
PendingOffline -> Finalized) -> Closed`), the `push_audio` /
`close_session` operations, §4.5's failure semantics and §8's testable
properties.  External collaborators (inference engine, decoder,
post-processor) appear as an abstract `Engine`; the VAD is the simplest
deterministic sample-driven classifier (a sample is speech iff it is
non-zero), which realises the spec's contract of sample-accurate,
chunking-independent boundary events.
-/

namespace TwoPass

/-- A raw audio sample.  Zero is classified as silence, anything else
as speech. -/
abbrev Sample := Int

/-- Which pass produced a transcript unit. -/
inductive PassKind where
  | online
  | offline
deriving DecidableEq, Repr

/-- Modelled from the spec: the output record of §6 — `{segment_id,
pass_kind, text, start_offset, end_offset (nullable until finalized),
finality, degraded}`. -/
structure TranscriptUnit where
  segmentId : Nat
  passKind : PassKind
  text : String
  startOff : Nat
  endOff : Option Nat
  finality : Bool
  degraded : Bool
deriving DecidableEq, Repr

/-- Modelled from the spec: the external inference+decode+post-process
stack (§4.3, §4.4, host of §4.5's passes), abstracted to text level.
`onlineDecode` is the fast pass over a growing prefix; `offlineDecode`
is the full-context pass over a finalized segment's samples, `none`
standing for an inference/decoder error. -/
structure Engine where
  onlineDecode : List Sample → String
  offlineDecode : List Sample → Option String

/-- Modelled from the spec: an open Segment (§3) — start offset,
buffered samples, and the last online hypothesis text emitted for it
(if any). -/
structure Segment where
  id : Nat
  startOff : Nat
  samples : List Sample
  lastOnline : Option String
deriving DecidableEq, Repr

/-- Session lifecycle phase (§4.5 state machine, Segment states kept in
`Session.openSeg`). -/
inductive Phase where
  | streaming
  | closed
deriving DecidableEq, Repr

/-- Modelled from the spec: a Session (§3) — phase, cumulative sample
offset, the currently open Segment if any, and the next fresh segment
identifier. -/
structure Session where
  phase : Phase
  offset : Nat
  openSeg : Option Segment
  nextSegId : Nat
deriving DecidableEq, Repr

/-- Errors surfaced to the caller by session operations (§7). -/
inductive SessionError where
  | sessionClosed
deriving DecidableEq, Repr

/-- A freshly opened session. -/
def newSession : Session :=
  ⟨Phase.streaming, 0, none, 0⟩

/-- Modelled from the spec: finalization of a Segment ending at
`endOff` (§4.5 SpeechEnd handling and failure semantics).  The offline
pass runs over the complete segment; on success its text is final and
not degraded; on failure the last online hypothesis is emitted as the
final unit with `degraded = true`. -/
def finalizeSegment (E : Engine) (seg : Segment) (endOff : Nat) : TranscriptUnit :=
  match E.offlineDecode seg.samples with
  | some t => ⟨seg.id, PassKind.offline, t, seg.startOff, some endOff, true, false⟩
  | none =>
      ⟨seg.id, PassKind.offline, seg.lastOnline.getD "", seg.startOff, some endOff,
       true, true⟩

/-- Modelled from the spec: processing of one sample by the VAD-driven
segment assembly (§4.5).  A speech sample outside a segment opens one
(SpeechStart at the current offset); a speech sample inside appends to
it (SpeechContinue); a silence sample inside closes it (SpeechEnd) and
immediately runs the offline pass, emitting the final unit. -/
def sampleStep (E : Engine) (st : Session) (s : Sample) :
    Session × List TranscriptUnit :=
  match st.openSeg with
  | none =>
      if s ≠ 0 then
        ({ st with offset := st.offset + 1,
                   openSeg := some ⟨st.nextSegId, st.offset, [s], none⟩,
                   nextSegId := st.nextSegId + 1 }, [])
      else
        ({ st with offset := st.offset + 1 }, [])
  | some seg =>
      if s ≠ 0 then
        ({ st with offset := st.offset + 1,
                   openSeg := some { seg with samples := seg.samples ++ [s] } }, [])
      else
        ({ st with offset := st.offset + 1, openSeg := none },
         [finalizeSegment E seg st.offset])

/-- Fold `sampleStep` over the samples of one chunk, accumulating the
emitted units in order. -/
def processSamples (E : Engine) (st : Session) :
    List Sample → Session × List TranscriptUnit
  | [] => (st, [])
  | s :: rest =>
      let r1 := sampleStep E st s
      let r2 := processSamples E r1.1 rest
      (r2.1, r1.2 ++ r2.2)

/-- Modelled from the spec: the rate-limited online pass (§4.5
SpeechContinue — at most one online unit per chunk per open Segment),
run once at the end of each chunk on the still-open Segment, updating
its last online hypothesis. -/
def onlineEmit (E : Engine) (st : Session) : Session × List TranscriptUnit :=
  match st.openSeg with
  | none => (st, [])
  | some seg =>
      let t := E.onlineDecode seg.samples
      ({ st with openSeg := some { seg with lastOnline := some t } },
       [⟨seg.id, PassKind.online, t, seg.startOff, none, false, false⟩])

/-- One chunk of audio through the orchestrator: per-sample VAD-driven
segment assembly, then the rate-limited online pass. -/
def stepChunk (E : Engine) (st : Session) (chunk : List Sample) :
    Session × List TranscriptUnit :=
  let r1 := processSamples E st chunk
  let r2 := onlineEmit E r1.1
  (r2.1, r1.2 ++ r2.2)

/-- Modelled from the spec: `push_audio` (§4.5).  Fails with
`SessionClosedError` on a closed session; otherwise feeds the chunk
through segment assembly and the online pass. -/
def pushAudio (E : Engine) (st : Session) (chunk : List Sample) :
    Except SessionError (Session × List TranscriptUnit) :=
  match st.phase with
  | Phase.closed => Except.error SessionError.sessionClosed
  | Phase.streaming => Except.ok (stepChunk E st chunk)

/-- Modelled from the spec: `close_session` (§4.5).  Forces the open
Segment (if any) to SpeechEnd, runs its offline pass, flushes the final
unit, and transitions to Closed. -/
def closeSession (E : Engine) (st : Session) : Session × List TranscriptUnit :=
  match st.phase with
  | Phase.closed => (st, [])
  | Phase.streaming =>
      match st.openSeg with
      | none => ({ st with phase := Phase.closed }, [])
      | some seg =>
          ({ st with phase := Phase.closed, openSeg := none },
           [finalizeSegment E seg st.offset])

/-- Push a list of chunks through `pushAudio` in order, accumulating
the emitted units; an error aborts (it never occurs from a streaming
state). -/
def runChunks (E : Engine) (st : Session) :
    List (List Sample) → Session × List TranscriptUnit
  | [] => (st, [])
  | c :: cs =>
      match pushAudio E st c with
      | Except.error _ => (st, [])
      | Except.ok r1 =>
          let r2 := runChunks E r1.1 cs
          (r2.1, r1.2 ++ r2.2)

/-- A complete session run: open, push all chunks, close. -/
def runSession (E : Engine) (chunks : List (List Sample)) :
    Session × List TranscriptUnit :=
  let r1 := runChunks E newSession chunks
  let r2 := closeSession E r1.1
  (r2.1, r1.2 ++ r2.2)

/-- The final, non-degraded (offline-pass) units of an output stream. -/
def offlineFinals (us : List TranscriptUnit) : List TranscriptUnit :=
  us.filter (fun u => u.finality && !u.degraded)

/-- An output stream is ordered when consecutive units are
non-decreasing in Segment start-offset. -/
def unitsOrdered (us : List TranscriptUnit) : Prop :=
  us.Chain' (fun a b => a.startOff ≤ b.startOff)

/-- At most one Finalized unit per Segment: any two finalized units in
the stream carry distinct segment identifiers. -/
def finalsUnique (us : List TranscriptUnit) : Prop :=
  us.Pairwise (fun a b => a.finality = true → b.finality = true → a.segmentId ≠ b.segmentId)

/-- The smallest start-offset a unit emitted from state `st` can carry:
the open Segment's start offset, or the current offset when no Segment
is open. -/
def floorOff (st : Session) : Nat :=
  match st.openSeg with
  | some seg => seg.startOff
  | none => st.offset

/-- Invariant tying a session state to the stream of units emitted so
far: the stream is ordered and below the floor, finalized units carry
identifiers below the fresh-identifier counter and are unique, and the
open Segment (when present) starts no later than the current offset,
owns the latest identifier and has not been finalized yet. -/
def Inv (st : Session) (us : List TranscriptUnit) : Prop :=
  unitsOrdered us ∧
  (∀ u ∈ us, u.startOff ≤ floorOff st) ∧
  (∀ u ∈ us, u.finality = true → u.segmentId < st.nextSegId) ∧
  finalsUnique us ∧
  (∀ seg, st.openSeg = some seg →
     seg.startOff ≤ st.offset ∧ seg.id + 1 = st.nextSegId ∧
     ∀ u ∈ us, u.finality = true → u.segmentId ≠ seg.id)

/-- The chunking-independent core of an open-Segment slot: identifier,
start offset and buffered samples (the cached last online hypothesis is
erased). -/
def segCore : Option Segment → Option (Nat × Nat × List Sample)
  | none => none
  | some seg => some (seg.id, seg.startOff, seg.samples)

/-- Two session states that agree on everything except the cached last
online hypothesis of the open Segment. -/
def SimR (st st' : Session) : Prop :=
  st.phase = st'.phase ∧ st.offset = st'.offset ∧ st.nextSegId = st'.nextSegId ∧
  segCore st.openSeg = segCore st'.openSeg

end TwoPass

namespace OrtCuda

/-- C1: whenever `FUNASR_ORT_USE_CUDA` is unset or set to the empty
string, `ShouldEnableOrtCuda` returns false and consequently
`TryEnableCudaExecutionProvider` returns false: the CUDA execution
provider is disabled by default and only enabled by explicit opt-in. -/
theorem cuda_gate_disabled_when_unset_or_empty
    (env : Option String) (appendOutcome : Except String Unit)
    (options : SessionOptions) (model_tag : String)
    (h : env = none ∨ env = some "") :
    shouldEnableOrtCuda env = false ∧
    (tryEnableCudaExecutionProvider env appendOutcome options model_tag).1 =
      Except.ok false := by
  rcases h with h | h <;> subst h <;>
    simp [shouldEnableOrtCuda, tryEnableCudaExecutionProvider]

/-- Witness for C1 at the concrete input: variable unset, a succeeding
append outcome, empty options, tag "paraformer". -/
theorem cuda_gate_disabled_when_unset_or_empty_witness :
    ((none : Option String) = none ∨ (none : Option String) = some "") ∧
    (shouldEnableOrtCuda none = false ∧
     (tryEnableCudaExecutionProvider none (Except.ok ()) ⟨[]⟩ "paraformer").1 =
       Except.ok false) :=
  ⟨Or.inl rfl,
   cuda_gate_disabled_when_unset_or_empty none (Except.ok ()) ⟨[]⟩ "paraformer"
     (Or.inl rfl)⟩

/-- C2: when the opt-in is active and appending the CUDA execution
provider throws, `TryEnableCudaExecutionProvider` catches the exception,
logs one warning naming the CPU fallback, and returns false to its
caller (the result is `Except.ok false`, never an escaping error), with
the session options left unchanged. -/
theorem cuda_append_failure_caught (env : Option String) (e : String)
    (options : SessionOptions) (model_tag : String)
    (h : shouldEnableOrtCuda env = true) :
    tryEnableCudaExecutionProvider env (Except.error e) options model_tag =
      (Except.ok false, options,
       [⟨Severity.warning, model_tag ++ " fallback to CPUExecutionProvider: " ++ e⟩]) := by
  simp [tryEnableCudaExecutionProvider, h]

/-- Witness for C2 at the concrete input: variable set to "1", a
throwing append, empty options, tag "paraformer". -/
theorem cuda_append_failure_caught_witness :
    shouldEnableOrtCuda (some "1") = true ∧
    tryEnableCudaExecutionProvider (some "1") (Except.error "no CUDA device")
        ⟨[]⟩ "paraformer" =
      (Except.ok false, ⟨[]⟩,
       [⟨Severity.warning, "paraformer fallback to CPUExecutionProvider: no CUDA device"⟩]) :=
  ⟨by decide,
   cuda_append_failure_caught (some "1") "no CUDA device" ⟨[]⟩ "paraformer" (by decide)⟩

/-- C8: `ShouldEnableOrtCuda` returns true exactly when the variable's
value, lowercased character by character, is one of "1", "true", "on",
"yes"; the check is case-insensitive ("TRUE", "Yes", "ON" enable) and
any other non-empty value such as "0" or "enabled" yields false. -/
theorem shouldEnableOrtCuda_iff_lowercased_token :
    (∀ v : String, shouldEnableOrtCuda (some v) = true ↔ specCudaOptIn v) ∧
    shouldEnableOrtCuda (some "TRUE") = true ∧
    shouldEnableOrtCuda (some "Yes") = true ∧
    shouldEnableOrtCuda (some "ON") = true ∧
    shouldEnableOrtCuda (some "0") = false ∧
    shouldEnableOrtCuda (some "enabled") = false := by
  refine ⟨?_, by decide, by decide, by decide, by decide, by decide⟩
  intro v
  by_cases hv : v = ""
  · subst hv
    simp [shouldEnableOrtCuda, specCudaOptIn, lowercased]
  · simp only [shouldEnableOrtCuda, hv, if_false, specCudaOptIn]
    split
    · simp [*]
    · simp [*]

/-- C9: when the opt-in is not active, `TryEnableCudaExecutionProvider`
returns false and leaves the session options completely unchanged (no
execution provider is appended). -/
theorem cuda_options_untouched_when_disabled (env : Option String)
    (appendOutcome : Except String Unit) (options : SessionOptions)
    (model_tag : String)
    (h : shouldEnableOrtCuda env = false) :
    (tryEnableCudaExecutionProvider env appendOutcome options model_tag).1 =
      Except.ok false ∧
    (tryEnableCudaExecutionProvider env appendOutcome options model_tag).2.1 =
      options := by
  simp [tryEnableCudaExecutionProvider, h]

/-- Witness for C9 at the concrete input: variable set to "0" (opt-in
inactive), a succeeding append outcome, one provider already present. -/
theorem cuda_options_untouched_when_disabled_witness :
    shouldEnableOrtCuda (some "0") = false ∧
    ((tryEnableCudaExecutionProvider (some "0") (Except.ok ()) ⟨["CPUExecutionProvider"]⟩
        "fsmn-vad").1 = Except.ok false ∧
     (tryEnableCudaExecutionProvider (some "0") (Except.ok ()) ⟨["CPUExecutionProvider"]⟩
        "fsmn-vad").2.1 = ⟨["CPUExecutionProvider"]⟩) :=
  ⟨by decide,
   cuda_options_untouched_when_disabled (some "0") (Except.ok ())
     ⟨["CPUExecutionProvider"]⟩ "fsmn-vad" (by decide)⟩

/-- C10: the boolean result and the resulting session options of
`TryEnableCudaExecutionProvider` are independent of the `model_tag`
argument; with the same environment and the same append outcome, two
calls differing only in `model_tag` agree on both (the tag influences
only the log text). -/
theorem cuda_result_independent_of_model_tag (env : Option String)
    (appendOutcome : Except String Unit) (options : SessionOptions)
    (tag1 tag2 : String) :
    (tryEnableCudaExecutionProvider env appendOutcome options tag1).1 =
      (tryEnableCudaExecutionProvider env appendOutcome options tag2).1 ∧
    (tryEnableCudaExecutionProvider env appendOutcome options tag1).2.1 =
      (tryEnableCudaExecutionProvider env appendOutcome options tag2).2.1 := by
  unfold tryEnableCudaExecutionProvider
  split
  · simp
  · cases appendOutcome <;> simp

end OrtCuda

namespace OrtCuda

/-- C3 counterexample: `TryEnableCudaExecutionProvider` keeps no
process-wide state, so probing is not performed once under a guarded
first-use check and the fallback warning is not one-time: with the
opt-in set and CUDA unavailable, two successive calls (the second
starting from the first call's resulting options) each re-attempt the
probe and together log two fallback warnings, not one. -/
theorem cuda_probe_not_once_counterexample :
    warningCount
      ((tryEnableCudaExecutionProvider (some "1") (Except.error "CUDA unavailable")
          ⟨[]⟩ "paraformer").2.2 ++
       (tryEnableCudaExecutionProvider (some "1") (Except.error "CUDA unavailable")
          (tryEnableCudaExecutionProvider (some "1") (Except.error "CUDA unavailable")
            ⟨[]⟩ "paraformer").2.1 "fsmn-vad").2.2) = 2 := by
  decide

/-- C3 amended: accelerated-provider probing is re-attempted on every
call to `TryEnableCudaExecutionProvider` when the opt-in is active —
the function holds no process-wide first-use guard — and each failing
call logs its own fallback warning (exactly one per failing call) while
still returning false; each succeeding call appends the provider
again. -/
theorem cuda_probe_reattempted_per_call (env : Option String) (e : String)
    (options : SessionOptions) (model_tag : String)
    (h : shouldEnableOrtCuda env = true) :
    warningCount
      (tryEnableCudaExecutionProvider env (Except.error e) options model_tag).2.2 = 1 ∧
    (tryEnableCudaExecutionProvider env (Except.error e) options model_tag).1 =
      Except.ok false ∧
    (tryEnableCudaExecutionProvider env (Except.ok ()) options model_tag).2.1.providers =
      options.providers ++ ["CUDAExecutionProvider"] := by
  simp [tryEnableCudaExecutionProvider, h, warningCount]

/-- Witness for the amended C3 at the concrete input: variable set to
"true", failing append with message "no driver", empty options. -/
theorem cuda_probe_reattempted_per_call_witness :
    shouldEnableOrtCuda (some "true") = true ∧
    (warningCount
       (tryEnableCudaExecutionProvider (some "true") (Except.error "no driver")
         ⟨[]⟩ "punc").2.2 = 1 ∧
     (tryEnableCudaExecutionProvider (some "true") (Except.error "no driver")
        ⟨[]⟩ "punc").1 = Except.ok false ∧
     (tryEnableCudaExecutionProvider (some "true") (Except.ok ())
        ⟨[]⟩ "punc").2.1.providers = [] ++ ["CUDAExecutionProvider"]) :=
  ⟨by decide,
   cuda_probe_reattempted_per_call (some "true") "no driver" ⟨[]⟩ "punc" (by decide)⟩

end OrtCuda

namespace TwoPass

theorem sampleStep_phase (E : Engine) (st : Session) (s : Sample) :
    (sampleStep E st s).1.phase = st.phase := by
  unfold sampleStep
  rcases st.openSeg with _ | seg <;> by_cases h0 : s = 0 <;> simp [h0]

theorem processSamples_phase (E : Engine) (l : List Sample) (st : Session) :
    (processSamples E st l).1.phase = st.phase := by
  induction l generalizing st with
  | nil => rfl
  | cons s rest ih =>
      simp only [processSamples]
      rw [ih, sampleStep_phase]

theorem onlineEmit_phase (E : Engine) (st : Session) :
    (onlineEmit E st).1.phase = st.phase := by
  unfold onlineEmit
  rcases st.openSeg with _ | seg <;> simp

theorem stepChunk_phase (E : Engine) (st : Session) (chunk : List Sample) :
    (stepChunk E st chunk).1.phase = st.phase := by
  unfold stepChunk
  rw [onlineEmit_phase, processSamples_phase]

/-- C6: a session that has transitioned to Closed rejects every
subsequent `push_audio` call with `SessionClosedError`: whatever session
`close_session` was applied to, its result is in the Closed phase and
any later `push_audio` on it (for any engine and chunk) fails with
`SessionClosedError`, surfaced to the caller. -/
theorem pushAudio_fails_after_close (E E2 : Engine) (st : Session)
    (chunk : List Sample) :
    (closeSession E st).1.phase = Phase.closed ∧
    pushAudio E2 (closeSession E st).1 chunk =
      Except.error SessionError.sessionClosed := by
  have hphase : (closeSession E st).1.phase = Phase.closed := by
    unfold closeSession
    rcases hp : st.phase with _ | _
    · rcases st.openSeg with _ | seg <;> simp [hp]
    · simp [hp]
  refine ⟨hphase, ?_⟩
  unfold pushAudio
  rw [hphase]

/-- C5: when the open Segment's offline pass fails, the final unit
emitted for it on segment close is marked `degraded = true` with the
text of the last online Hypothesis, and the session keeps accepting
audio: pushing a chunk that starts with silence (closing the segment)
succeeds, emits that degraded final unit first, leaves the session
streaming, and every further `push_audio` still succeeds. -/
theorem offline_failure_degraded_fallback (E : Engine) (st : Session)
    (seg : Segment) (hyp : String) (rest : List Sample)
    (hphase : st.phase = Phase.streaming)
    (hopen : st.openSeg = some seg)
    (honline : seg.lastOnline = some hyp)
    (hfail : E.offlineDecode seg.samples = none) :
    ∃ st' units,
      pushAudio E st ((0 : Sample) :: rest) = Except.ok (st', units) ∧
      units.head? =
        some ⟨seg.id, PassKind.offline, hyp, seg.startOff, some st.offset, true, true⟩ ∧
      st'.phase = Phase.streaming ∧
      ∀ chunk, ∃ r, pushAudio E st' chunk = Except.ok r := by
  refine ⟨(stepChunk E st ((0 : Sample) :: rest)).1,
          (stepChunk E st ((0 : Sample) :: rest)).2, ?_, ?_, ?_, ?_⟩
  · unfold pushAudio
    rw [hphase]
  · have hstep : sampleStep E st (0 : Sample) =
        ({ st with offset := st.offset + 1, openSeg := none },
         [⟨seg.id, PassKind.offline, hyp, seg.startOff, some st.offset, true, true⟩]) := by
      unfold sampleStep
      rw [hopen]
      simp [finalizeSegment, hfail, honline]
    unfold stepChunk
    simp only [processSamples, hstep]
    simp
  · rw [stepChunk_phase, hphase]
  · intro chunk
    refine ⟨stepChunk E (stepChunk E st ((0 : Sample) :: rest)).1 chunk, ?_⟩
    unfold pushAudio
    rw [stepChunk_phase, hphase]

/-- Witness for C5 at a concrete input: an engine whose offline pass
always fails, a streaming session with one open segment whose last
online hypothesis is "hello", closed by a silent chunk. -/
theorem offline_failure_degraded_fallback_witness :
    ((⟨Phase.streaming, 3, some ⟨0, 1, [5, 5], some "hello"⟩, 1⟩ : Session).phase =
       Phase.streaming ∧
     (⟨Phase.streaming, 3, some ⟨0, 1, [5, 5], some "hello"⟩, 1⟩ : Session).openSeg =
       some ⟨0, 1, [5, 5], some "hello"⟩ ∧
     (⟨0, 1, [5, 5], some "hello"⟩ : Segment).lastOnline = some "hello" ∧
     (⟨fun _ => "partial", fun _ => none⟩ : Engine).offlineDecode
       (⟨0, 1, [5, 5], some "hello"⟩ : Segment).samples = none) ∧
    (∃ st' units,
      pushAudio ⟨fun _ => "partial", fun _ => none⟩
          ⟨Phase.streaming, 3, some ⟨0, 1, [5, 5], some "hello"⟩, 1⟩
          ((0 : Sample) :: []) = Except.ok (st', units) ∧
      units.head? = some ⟨0, PassKind.offline, "hello", 1, some 3, true, true⟩ ∧
      st'.phase = Phase.streaming ∧
      ∀ chunk, ∃ r,
        pushAudio ⟨fun _ => "partial", fun _ => none⟩ st' chunk = Except.ok r) :=
  ⟨⟨rfl, rfl, rfl, rfl⟩,
   offline_failure_degraded_fallback ⟨fun _ => "partial", fun _ => none⟩
     ⟨Phase.streaming, 3, some ⟨0, 1, [5, 5], some "hello"⟩, 1⟩
     ⟨0, 1, [5, 5], some "hello"⟩ "hello" [] rfl rfl rfl rfl⟩

end TwoPass

namespace TwoPass

theorem last_mem_of_getLast {α : Type} {l : List α} {x : α}
    (h : x ∈ l.getLast?) : x ∈ l := by
  rcases List.mem_getLast?_eq_getLast h with ⟨hne, rfl⟩
  exact List.getLast_mem hne

theorem finalizeSegment_startOff (E : Engine) (seg : Segment) (endOff : Nat) :
    (finalizeSegment E seg endOff).startOff = seg.startOff := by
  unfold finalizeSegment
  rcases E.offlineDecode seg.samples with _ | t <;> simp

theorem finalizeSegment_segmentId (E : Engine) (seg : Segment) (endOff : Nat) :
    (finalizeSegment E seg endOff).segmentId = seg.id := by
  unfold finalizeSegment
  rcases E.offlineDecode seg.samples with _ | t <;> simp

theorem finalizeSegment_finality (E : Engine) (seg : Segment) (endOff : Nat) :
    (finalizeSegment E seg endOff).finality = true := by
  unfold finalizeSegment
  rcases E.offlineDecode seg.samples with _ | t <;> simp

theorem inv_sampleStep (E : Engine) (st : Session) (s : Sample)
    (us : List TranscriptUnit) (h : Inv st us) :
    Inv (sampleStep E st s).1 (us ++ (sampleStep E st s).2) := by
  obtain ⟨hord, hfloor, hids, huniq, hopen⟩ := h
  unfold sampleStep
  rcases hseg : st.openSeg with _ | seg
  · simp only [floorOff, hseg] at hfloor
    by_cases h0 : s = 0
    · subst h0
      simp only [ne_eq, not_true_eq_false, if_false, List.append_nil]
      refine ⟨hord, ?_, hids, huniq, ?_⟩
      · intro u hu
        simp only [floorOff]
        exact Nat.le_succ_of_le (hfloor u hu)
      · intro seg hcon
        simp at hcon
    · simp only [ne_eq, h0, not_false_eq_true, if_true, List.append_nil]
      refine ⟨hord, ?_, ?_, huniq, ?_⟩
      · intro u hu
        simpa only [floorOff] using hfloor u hu
      · intro u hu hf
        exact Nat.lt_succ_of_lt (hids u hu hf)
      · intro seg' hcon
        simp only [Option.some_inj] at hcon
        subst hcon
        refine ⟨Nat.le_succ _, rfl, ?_⟩
        intro u hu hf
        exact Nat.ne_of_lt (hids u hu hf)
  · simp only [floorOff, hseg] at hfloor
    obtain ⟨hso, hid, hnofin⟩ := hopen seg hseg
    by_cases h0 : s = 0
    · subst h0
      simp only [ne_eq, not_true_eq_false, if_false]
      refine ⟨?_, ?_, ?_, ?_, ?_⟩
      · refine List.Chain'.append hord (List.chain'_singleton _) ?_
        intro x hx y hy
        simp only [List.head?, Option.mem_def, Option.some_inj] at hy
        subst hy
        rw [finalizeSegment_startOff]
        exact hfloor x (last_mem_of_getLast hx)
      · intro u hu
        simp only [floorOff]
        rcases List.mem_append.1 hu with hu | hu
        · exact Nat.le_succ_of_le (Nat.le_trans (hfloor u hu) hso)
        · simp only [List.mem_singleton] at hu
          subst hu
          rw [finalizeSegment_startOff]
          exact Nat.le_succ_of_le hso
      · intro u hu hf
        rcases List.mem_append.1 hu with hu | hu
        · exact hids u hu hf
        · simp only [List.mem_singleton] at hu
          subst hu
          rw [finalizeSegment_segmentId]
          exact Nat.lt_of_succ_le (Nat.le_of_eq hid)
      · rw [finalsUnique, List.pairwise_append]
        refine ⟨huniq, List.pairwise_singleton _ _, ?_⟩
        intro a ha b hb hfa hfb
        simp only [List.mem_singleton] at hb
        subst hb
        rw [finalizeSegment_segmentId]
        exact hnofin a ha hfa
      · intro seg' hcon
        simp at hcon
    · simp only [ne_eq, h0, not_false_eq_true, if_true, List.append_nil]
      refine ⟨hord, ?_, hids, huniq, ?_⟩
      · intro u hu
        simpa only [floorOff] using hfloor u hu
      · intro seg' hcon
        simp only [Option.some_inj] at hcon
        subst hcon
        exact ⟨Nat.le_succ_of_le hso, hid, hnofin⟩

theorem inv_onlineEmit (E : Engine) (st : Session) (us : List TranscriptUnit)
    (h : Inv st us) : Inv (onlineEmit E st).1 (us ++ (onlineEmit E st).2) := by
  obtain ⟨hord, hfloor, hids, huniq, hopen⟩ := h
  unfold onlineEmit
  rcases hseg : st.openSeg with _ | seg
  · simp only [List.append_nil]
    exact ⟨hord, hfloor, hids, huniq, hopen⟩
  · simp only [floorOff, hseg] at hfloor
    obtain ⟨hso, hid, hnofin⟩ := hopen seg hseg
    refine ⟨?_, ?_, ?_, ?_, ?_⟩
    · refine List.Chain'.append hord (List.chain'_singleton _) ?_
      intro x hx y hy
      simp only [List.head?, Option.mem_def, Option.some_inj] at hy
      subst hy
      exact hfloor x (last_mem_of_getLast hx)
    · intro u hu
      simp only [floorOff]
      rcases List.mem_append.1 hu with hu | hu
      · exact hfloor u hu
      · simp only [List.mem_singleton] at hu
        subst hu
        exact Nat.le_refl _
    · intro u hu hf
      rcases List.mem_append.1 hu with hu | hu
      · exact hids u hu hf
      · simp only [List.mem_singleton] at hu
        subst hu
        simp at hf
    · rw [finalsUnique, List.pairwise_append]
      refine ⟨huniq, List.pairwise_singleton _ _, ?_⟩
      intro a ha b hb hfa hfb
      simp only [List.mem_singleton] at hb
      subst hb
      simp at hfb
    · intro seg' hcon
      simp only [Option.some_inj] at hcon
      subst hcon
      refine ⟨hso, hid, ?_⟩
      intro u hu hf
      rcases List.mem_append.1 hu with hu | hu
      · exact hnofin u hu hf
      · simp only [List.mem_singleton] at hu
        subst hu
        simp at hf

theorem inv_processSamples (E : Engine) (l : List Sample) (st : Session)
    (us : List TranscriptUnit) (h : Inv st us) :
    Inv (processSamples E st l).1 (us ++ (processSamples E st l).2) := by
  induction l generalizing st us with
  | nil => simpa [processSamples] using h
  | cons s rest ih =>
      simp only [processSamples]
      have h1 := inv_sampleStep E st s us h
      have h2 := ih (sampleStep E st s).1 (us ++ (sampleStep E st s).2) h1
      simpa [List.append_assoc] using h2

theorem inv_stepChunk (E : Engine) (st : Session) (chunk : List Sample)
    (us : List TranscriptUnit) (h : Inv st us) :
    Inv (stepChunk E st chunk).1 (us ++ (stepChunk E st chunk).2) := by
  unfold stepChunk
  have h1 := inv_processSamples E chunk st us h
  have h2 := inv_onlineEmit E (processSamples E st chunk).1 _ h1
  simpa [List.append_assoc] using h2

theorem inv_runChunks (E : Engine) (cs : List (List Sample)) (st : Session)
    (us : List TranscriptUnit) (h : Inv st us) :
    Inv (runChunks E st cs).1 (us ++ (runChunks E st cs).2) := by
  induction cs generalizing st us with
  | nil => simpa [runChunks] using h
  | cons c rest ih =>
      simp only [runChunks]
      rcases hp : st.phase with _ | _
      · have hpa : pushAudio E st c = Except.ok (stepChunk E st c) := by
          unfold pushAudio
          rw [hp]
        rw [hpa]
        have h1 := inv_stepChunk E st c us h
        have h2 := ih (stepChunk E st c).1 (us ++ (stepChunk E st c).2) h1
        simpa [List.append_assoc] using h2
      · have hpa : pushAudio E st c = Except.error SessionError.sessionClosed := by
          unfold pushAudio
          rw [hp]
        rw [hpa]
        simpa using h

theorem inv_closeSession (E : Engine) (st : Session) (us : List TranscriptUnit)
    (h : Inv st us) :
    Inv (closeSession E st).1 (us ++ (closeSession E st).2) := by
  obtain ⟨hord, hfloor, hids, huniq, hopen⟩ := h
  unfold closeSession
  rcases hp : st.phase with _ | _
  · rcases hseg : st.openSeg with _ | seg
    · simp only [List.append_nil]
      refine ⟨hord, ?_, hids, huniq, ?_⟩
      · intro u hu
        simpa only [floorOff, hseg] using hfloor u hu
      · intro seg hcon
        simp at hcon
    · simp only [floorOff, hseg] at hfloor
      obtain ⟨hso, hid, hnofin⟩ := hopen seg hseg
      refine ⟨?_, ?_, ?_, ?_, ?_⟩
      · refine List.Chain'.append hord (List.chain'_singleton _) ?_
        intro x hx y hy
        simp only [List.head?, Option.mem_def, Option.some_inj] at hy
        subst hy
        rw [finalizeSegment_startOff]
        exact hfloor x (last_mem_of_getLast hx)
      · intro u hu
        simp only [floorOff]
        rcases List.mem_append.1 hu with hu | hu
        · exact Nat.le_trans (hfloor u hu) hso
        · simp only [List.mem_singleton] at hu
          subst hu
          rw [finalizeSegment_startOff]
          exact hso
      · intro u hu hf
        rcases List.mem_append.1 hu with hu | hu
        · exact hids u hu hf
        · simp only [List.mem_singleton] at hu
          subst hu
          rw [finalizeSegment_segmentId]
          exact Nat.lt_of_succ_le (Nat.le_of_eq hid)
      · rw [finalsUnique, List.pairwise_append]
        refine ⟨huniq, List.pairwise_singleton _ _, ?_⟩
        intro a ha b hb hfa hfb
        simp only [List.mem_singleton] at hb
        subst hb
        rw [finalizeSegment_segmentId]
        exact hnofin a ha hfa
      · intro seg' hcon
        simp at hcon
  · simp only [List.append_nil]
    exact ⟨hord, hfloor, hids, huniq, hopen⟩

theorem inv_newSession : Inv newSession [] := by
  refine ⟨List.chain'_nil, ?_, ?_, List.Pairwise.nil, ?_⟩
  · intro u hu
    simp at hu
  · intro u hu
    simp at hu
  · intro seg hcon
    simp [newSession] at hcon

/-- C4: for every engine and every sequence of pushed chunks, the
stream of TranscriptUnits a caller observes over the whole session
(all `push_audio` emissions followed by the `close_session` flush) is
non-decreasing in Segment start-offset, and at most one Finalized unit
is ever emitted per Segment. -/
theorem transcript_units_ordered_and_finals_unique (E : Engine)
    (chunks : List (List Sample)) :
    unitsOrdered (runSession E chunks).2 ∧ finalsUnique (runSession E chunks).2 := by
  have h1 := inv_runChunks E chunks newSession [] inv_newSession
  rw [List.nil_append] at h1
  have h2 := inv_closeSession E (runChunks E newSession chunks).1
    (runChunks E newSession chunks).2 h1
  obtain ⟨hord, _, _, huniq, _⟩ := h2
  exact ⟨hord, huniq⟩

end TwoPass

namespace TwoPass

theorem offlineFinals_append (a b : List TranscriptUnit) :
    offlineFinals (a ++ b) = offlineFinals a ++ offlineFinals b := by
  simp [offlineFinals, List.filter_append]

theorem simR_refl (st : Session) : SimR st st :=
  ⟨rfl, rfl, rfl, rfl⟩

theorem simR_symm {a b : Session} (h : SimR a b) : SimR b a :=
  ⟨h.1.symm, h.2.1.symm, h.2.2.1.symm, h.2.2.2.symm⟩

theorem simR_trans {a b c : Session} (h1 : SimR a b) (h2 : SimR b c) : SimR a c :=
  ⟨h1.1.trans h2.1, h1.2.1.trans h2.2.1, h1.2.2.1.trans h2.2.2.1,
   h1.2.2.2.trans h2.2.2.2⟩

theorem sim_sampleStep (E : Engine) {st st' : Session} (s : Sample) (h : SimR st st') :
    SimR (sampleStep E st s).1 (sampleStep E st' s).1 ∧
    offlineFinals (sampleStep E st s).2 = offlineFinals (sampleStep E st' s).2 := by
  obtain ⟨hph, hoff, hnid, hseg⟩ := h
  unfold sampleStep
  rcases h1 : st.openSeg with _ | seg <;> rcases h2 : st'.openSeg with _ | seg'
  · by_cases h0 : s = 0 <;>
      simp [h0, SimR, segCore, hph, hoff, hnid, offlineFinals]
  · rw [h1, h2] at hseg
    simp [segCore] at hseg
  · rw [h1, h2] at hseg
    simp [segCore] at hseg
  · rw [h1, h2] at hseg
    simp only [segCore, Option.some_inj, Prod.mk.injEq] at hseg
    obtain ⟨hsid, hsso, hss⟩ := hseg
    by_cases h0 : s = 0
    · subst h0
      simp only [ne_eq, not_true_eq_false, if_false]
      refine ⟨⟨hph, by rw [hoff], hnid, by simp [segCore]⟩, ?_⟩
      unfold finalizeSegment
      rcases hdec : E.offlineDecode seg.samples with _ | t
      · have hdec2 : E.offlineDecode seg'.samples = none := by
          rw [← hss]
          exact hdec
        simp [hdec, hdec2, offlineFinals]
      · have hdec2 : E.offlineDecode seg'.samples = some t := by
          rw [← hss]
          exact hdec
        simp [hdec, hdec2, offlineFinals, hsid, hsso, hoff]
    · simp only [ne_eq, h0, not_false_eq_true, if_true]
      refine ⟨⟨hph, by rw [hoff], hnid, ?_⟩, by simp [offlineFinals]⟩
      simp [segCore, hsid, hsso, hss]

theorem sim_processSamples (E : Engine) (l : List Sample) {st st' : Session}
    (h : SimR st st') :
    SimR (processSamples E st l).1 (processSamples E st' l).1 ∧
    offlineFinals (processSamples E st l).2 =
      offlineFinals (processSamples E st' l).2 := by
  induction l generalizing st st' with
  | nil => exact ⟨h, rfl⟩
  | cons s rest ih =>
      simp only [processSamples]
      obtain ⟨h1, h2⟩ := sim_sampleStep E s h
      obtain ⟨h3, h4⟩ := ih h1
      refine ⟨h3, ?_⟩
      rw [offlineFinals_append, offlineFinals_append, h2, h4]

theorem sim_onlineEmit_self (E : Engine) (st : Session) :
    SimR (onlineEmit E st).1 st ∧ offlineFinals (onlineEmit E st).2 = [] := by
  unfold onlineEmit
  rcases hseg : st.openSeg with _ | seg
  · exact ⟨simR_refl st, rfl⟩
  · refine ⟨⟨rfl, rfl, rfl, ?_⟩, by simp [offlineFinals]⟩
    simp [segCore, hseg]

theorem sim_stepChunk_processSamples (E : Engine) (c : List Sample)
    {st st' : Session} (h : SimR st st') :
    SimR (stepChunk E st c).1 (processSamples E st' c).1 ∧
    offlineFinals (stepChunk E st c).2 =
      offlineFinals (processSamples E st' c).2 := by
  unfold stepChunk
  obtain ⟨h1, h2⟩ := sim_processSamples E c h
  obtain ⟨h3, h4⟩ := sim_onlineEmit_self E (processSamples E st c).1
  refine ⟨simR_trans h3 h1, ?_⟩
  rw [offlineFinals_append, h2, h4, List.append_nil]

theorem processSamples_append (E : Engine) (a b : List Sample) (st : Session) :
    processSamples E st (a ++ b) =
      ((processSamples E (processSamples E st a).1 b).1,
       (processSamples E st a).2 ++ (processSamples E (processSamples E st a).1 b).2) := by
  induction a generalizing st with
  | nil => simp [processSamples]
  | cons s rest ih =>
      simp only [List.cons_append, processSamples]
      simp only [List.append_eq]
      rw [ih]
      simp [List.append_assoc]

theorem sim_runChunks (E : Engine) (cs : List (List Sample)) {st st' : Session}
    (h : SimR st st') (hstr : st.phase = Phase.streaming) :
    SimR (runChunks E st cs).1 (processSamples E st' cs.flatten).1 ∧
    offlineFinals (runChunks E st cs).2 =
      offlineFinals (processSamples E st' cs.flatten).2 := by
  induction cs generalizing st st' with
  | nil => exact ⟨h, rfl⟩
  | cons c rest ih =>
      have hpa : pushAudio E st c = Except.ok (stepChunk E st c) := by
        unfold pushAudio
        rw [hstr]
      simp only [runChunks, hpa, List.flatten_cons]
      rw [processSamples_append]
      obtain ⟨h1, h2⟩ := sim_stepChunk_processSamples E c h
      have hstr2 : (stepChunk E st c).1.phase = Phase.streaming := by
        rw [stepChunk_phase, hstr]
      obtain ⟨h3, h4⟩ := ih h1 hstr2
      refine ⟨h3, ?_⟩
      rw [offlineFinals_append, offlineFinals_append, h2, h4]

theorem closeSession_when_closed (E : Engine) {st : Session}
    (hp : st.phase = Phase.closed) : closeSession E st = (st, []) := by
  unfold closeSession
  rw [hp]

theorem closeSession_streaming_none (E : Engine) {st : Session}
    (hp : st.phase = Phase.streaming) (hs : st.openSeg = none) :
    closeSession E st = ({ st with phase := Phase.closed }, []) := by
  unfold closeSession
  rw [hp, hs]

theorem closeSession_streaming_some (E : Engine) {st : Session} {seg : Segment}
    (hp : st.phase = Phase.streaming) (hs : st.openSeg = some seg) :
    closeSession E st =
      ({ st with phase := Phase.closed, openSeg := none },
       [finalizeSegment E seg st.offset]) := by
  unfold closeSession
  rw [hp, hs]

theorem sim_closeSession (E : Engine) {st st' : Session} (h : SimR st st') :
    offlineFinals (closeSession E st).2 = offlineFinals (closeSession E st').2 := by
  obtain ⟨hph, hoff, hnid, hseg⟩ := h
  rcases hp : st.phase with _ | _
  · have hp' : st'.phase = Phase.streaming := by
      rw [← hph]
      exact hp
    rcases h1 : st.openSeg with _ | seg <;> rcases h2 : st'.openSeg with _ | seg'
    · rw [closeSession_streaming_none E hp h1, closeSession_streaming_none E hp' h2]
    · rw [h1, h2] at hseg
      simp [segCore] at hseg
    · rw [h1, h2] at hseg
      simp [segCore] at hseg
    · rw [h1, h2] at hseg
      simp only [segCore, Option.some_inj, Prod.mk.injEq] at hseg
      obtain ⟨hsid, hsso, hss⟩ := hseg
      rw [closeSession_streaming_some E hp h1, closeSession_streaming_some E hp' h2]
      unfold finalizeSegment
      rcases hdec : E.offlineDecode seg.samples with _ | t
      · have hdec2 : E.offlineDecode seg'.samples = none := by
          rw [← hss]
          exact hdec
        simp [hdec, hdec2, offlineFinals]
      · have hdec2 : E.offlineDecode seg'.samples = some t := by
          rw [← hss]
          exact hdec
        simp [hdec, hdec2, offlineFinals, hsid, hsso, hoff]
  · have hp' : st'.phase = Phase.closed := by
      rw [← hph]
      exact hp
    rw [closeSession_when_closed E hp, closeSession_when_closed E hp']

/-- C7: feeding the full audio as one chunk and feeding the same
samples split into many small chunks (boundaries are sample-driven, so
the same segment boundaries are detected) yield exactly the same
sequence of non-degraded final (offline-pass) TranscriptUnits over the
whole session — identical final text, segment identifiers and offsets
for every Segment: chunking does not change offline results. -/
theorem chunking_preserves_offline_finals (E : Engine)
    (chunks : List (List Sample)) :
    offlineFinals (runSession E chunks).2 =
      offlineFinals (runSession E [chunks.flatten]).2 := by
  have hL := sim_runChunks E chunks (simR_refl newSession) rfl
  have hR := sim_stepChunk_processSamples E chunks.flatten (simR_refl newSession)
  have hrc : runChunks E newSession [chunks.flatten] =
      ((stepChunk E newSession chunks.flatten).1,
       (stepChunk E newSession chunks.flatten).2 ++ []) := rfl
  have hclose := sim_closeSession E (simR_trans hL.1 (simR_symm hR.1))
  simp only [runSession, hrc, List.append_nil, offlineFinals_append]
  rw [hL.2, hR.2, hclose]

end TwoPass
